import Mathlib

/-! Verification of the progress-tracking and topic-selection logic of
`ai_c_tutor.py` (a Streamlit C-programming tutor app).

The embedding models:
  * the per-user progress store (`load_progress`, `save_progress`,
    `reset_progress`) over an abstract filesystem keyed by username
    (`get_user_file` builds the path `user_data_c/{username}_progress.json`,
    injective in the username, so the store is a map from username to the
    optional parsed JSON object of that file);
  * a Python dict of topic-to-bool as an association list in insertion
    order, with `dict.get(k, False)` as `(d.lookup k).getD false`;
  * the inline progress-percentage computation (lines 163-167);
  * `get_explanation` (lines 116-131), with the HTTP response abstracted
    to its status code, body text, and parsed message content;
  * the Streamlit session state and the button handlers (Teach Me,
    Regenerate, Mark Done, Next), each handler taking the completion
    response as a parameter and returning the updated state together
    with the list of Completion Service request payloads it issued. -/

abbrev Topic := String

/-- A Python dict mapping topic strings to completion booleans, as an
association list in insertion order (the parsed JSON object). -/
abbrev ProgressRecord := List (Topic × Bool)

/-- The filesystem restricted to the per-user progress files:
`username ↦ parsed contents of the user's progress file`, `none` when the
file does not exist. -/
abbrev Store := String → Option ProgressRecord

/-- Embeds `load_progress(topics, username)` (lines 98-104): if the user's
file exists, return `{topic: data.get(topic, False) for topic in topics}`;
otherwise `{topic: False for topic in topics}`. -/
def load_progress (topics : List Topic) (username : String) (fs : Store) :
    ProgressRecord :=
  match fs username with
  | some data => topics.map (fun topic => (topic, (data.lookup topic).getD false))
  | none => topics.map (fun topic => (topic, false))

/-- Embeds `save_progress(progress, username)` (lines 106-108): overwrite
the user's file with `progress`. -/
def save_progress (progress : ProgressRecord) (username : String) (fs : Store) :
    Store :=
  fun u => if u = username then some progress else fs u

/-- Embeds `reset_progress(topics, username)` (lines 110-111). -/
def reset_progress (topics : List Topic) (username : String) (fs : Store) :
    Store :=
  save_progress (topics.map (fun topic => (topic, false))) username fs

/-- Embeds `sum(progress.values())` (line 163): booleans sum to the count
of `True` values. -/
def completedCount (progress : ProgressRecord) : Nat :=
  (progress.filter (fun p => p.2)).length

/-- Embeds the percentage computation `percent = int((completed / total) * 100)`
(lines 163-165) with `total = len(ROADMAP)`.  Python raises
`ZeroDivisionError` when `total == 0`, embedded as `none`; otherwise
`int` truncates the nonnegative exact quotient, i.e. floor division
(exact for every reachable roadmap size, all of which are at most 15). -/
def percentCode (progress : ProgressRecord) (roadmap : List Topic) :
    Option Nat :=
  if roadmap.length = 0 then none
  else some (100 * completedCount progress / roadmap.length)

/-- Embeds the three instruction templates of `get_explanation`
(lines 117-121): `quiz` is tested first, `example` only in the `elif`. -/
def instructionFor (quiz «example» : Bool) : String :=
  if quiz then
    "Create a multiple choice quiz (3-4 options) with correct answer for:"
  else if «example» then
    "Give a real-world example with code and explanation for:"
  else
    "Explain the C programming concept clearly with code examples."

/-- Embeds the `messages` list of `get_explanation` (lines 123-126):
role-tagged message pairs; the user message is `f"{instruction} {concept}"`. -/
def get_explanation_messages (concept : Topic) (quiz «example» : Bool) :
    List (String × String) :=
  [("system", "You are a helpful C programming tutor."),
   ("user", instructionFor quiz «example» ++ " " ++ concept)]

/-- An HTTP response from the Completion Service, abstracted to the three
fields the code reads: `res.status_code`, `res.text`, and the parsed
success payload `res.json()["choices"][0]["message"]["content"]`. -/
structure HttpResponse where
  status_code : Nat
  text : String
  content : String
deriving DecidableEq, Repr

/-- Embeds the response handling of `get_explanation` (lines 129-131): the
parsed content on status 200, otherwise the verbatim error string.  This
part of the code sits outside the mode branch and never raises. -/
def explanationText (res : HttpResponse) : String :=
  if res.status_code = 200 then res.content
  else "❌ Error " ++ toString res.status_code ++ ": " ++ res.text

/-- Embeds `get_explanation(concept, quiz, example)` (lines 116-131) as a
whole: the request payload it posts and the text it returns for a given
response. -/
def get_explanation (concept : Topic) (quiz «example» : Bool)
    (res : HttpResponse) : List (String × String) × String :=
  (get_explanation_messages concept quiz «example», explanationText res)

/-- The Streamlit session-state keys the handlers touch:
`selected_concept` (absent modelled as `none`), `explanation`, `example`,
`quiz`. -/
structure SessionState where
  selected_concept : Option Topic
  explanation : Option String
  «example» : Option String
  quiz : Option String
deriving DecidableEq, Repr

/-- Embeds the concept selector source (line 180):
`[c for c in ROADMAP if not progress[c]]`.  `progress` always carries every
roadmap topic as a key (it comes from `load_progress(ROADMAP, ...)`), so
`progress[c]` is `(progress.lookup c).getD false`. -/
def available_concepts (roadmap : List Topic) (progress : ProgressRecord) :
    List Topic :=
  roadmap.filter (fun c => !((progress.lookup c).getD false))

/-- Python dict assignment `d[k] = v`: update the existing key in place,
else append the new key at the end. -/
def dictSet (d : ProgressRecord) (k : Topic) (v : Bool) : ProgressRecord :=
  if (d.lookup k).isSome then
    d.map (fun p => bif p.1 == k then (k, v) else p)
  else d ++ [(k, v)]

/-- Embeds the Teach Me handler (lines 183-187): stores the selection,
requests and stores an explanation, and sets `quiz` and `example` to
`None`. -/
def teachMeStep (selected : Topic) (res : HttpResponse) (sess : SessionState) :
    SessionState × List (List (String × String)) :=
  ({ sess with
      selected_concept := some selected,
      explanation := some (explanationText res),
      quiz := none,
      «example» := none },
   [get_explanation_messages selected false false])

/-- Embeds the Regenerate handler (lines 197-199): re-requests the
explanation for the current concept and overwrites only `explanation`. -/
def regenerateStep (concept : Topic) (res : HttpResponse) (sess : SessionState) :
    SessionState × List (List (String × String)) :=
  ({ sess with explanation := some (explanationText res) },
   [get_explanation_messages concept false false])

/-- Embeds the Mark Done handler (lines 201-205): sets
`progress[concept] = True`, saves the dict, and pops `selected_concept`
from the session state.  Returns the updated progress dict, filesystem and
session state. -/
def markDoneStep (progress : ProgressRecord) (concept : Topic)
    (username : String) (fs : Store) (sess : SessionState) :
    ProgressRecord × Store × SessionState :=
  let progress2 := dictSet progress concept true
  (progress2, save_progress progress2 username fs,
   { sess with selected_concept := none })

/-- Embeds line 208:
`idx = available_concepts.index(concept) + 1 if concept in available_concepts else 0`. -/
def nextIdx (available : List Topic) (concept : Topic) : Nat :=
  if concept ∈ available then available.indexOf concept + 1 else 0

/-- Embeds the Next handler (lines 207-212): when
`idx < len(available_concepts)` it selects `available_concepts[idx]` and
requests its explanation; otherwise the handler body does nothing. -/
def nextStep (available : List Topic) (concept : Topic) (res : HttpResponse)
    (sess : SessionState) : SessionState × List (List (String × String)) :=
  if h : nextIdx available concept < available.length then
    ({ sess with
        selected_concept := some (available.get ⟨nextIdx available concept, h⟩),
        explanation := some (explanationText res) },
     [get_explanation_messages (available.get ⟨nextIdx available concept, h⟩)
        false false])
  else (sess, [])

/-- The first not-yet-completed topic strictly after the first occurrence
of `concept` in roadmap order: the successor the spec describes for the
`next` action. -/
def succAfter (roadmap : List Topic) (progress : ProgressRecord)
    (concept : Topic) : Option Topic :=
  (((roadmap.dropWhile (fun x => x != concept)).tail).filter
    (fun c => !((progress.lookup c).getD false))).head?

/-- A filesystem with no progress files. -/
def emptyStore : Store := fun _ => none

/-- A filesystem holding one stored record for user alice, containing a
key for topic B only. -/
def fsAlice : Store := fun u => if u = "alice" then some [("B", true)] else none

/-- A successful Completion Service response. -/
def resOk : HttpResponse := ⟨200, "OK", "generated text"⟩

/-- The failing Completion Service response of the spec scenario. -/
def res500 : HttpResponse := ⟨500, "rate limited", "unused"⟩

/-- A session state with a selection and cached content in every slot. -/
def sessStub : SessionState := ⟨some "A", some "expl", some "ex", some "qz"⟩

/- Helper lemmas -/

theorem lookup_map_self (topics : List Topic) (f : Topic → Bool) (t : Topic) :
    (topics.map (fun x => (x, f x))).lookup t
      = if t ∈ topics then some (f t) else none := by
  induction topics with
  | nil => simp [List.lookup]
  | cons a l ih =>
      by_cases h : t = a
      · subst h; simp [List.lookup]
      · have hb : (t == a) = false := by
          simp [beq_eq_false_iff_ne]; exact h
        simp only [List.map_cons, List.lookup, hb, ih]
        simp [List.mem_cons, h]

theorem lookup_map_update (d : ProgressRecord) (k : Topic) (v : Bool) :
    (d.map (fun p => bif p.1 == k then (k, v) else p)).lookup k
      = (d.lookup k).map (fun _ => v) := by
  induction d with
  | nil => rfl
  | cons a l ih =>
      obtain ⟨k1, v1⟩ := a
      by_cases h : k1 = k
      · subst h
        simp only [List.map_cons, beq_self_eq_true, cond_true, List.lookup,
          beq_self_eq_true]
        rfl
      · have hb1 : (k1 == k) = false := by
          simp [beq_eq_false_iff_ne]; exact h
        have hb : (k == k1) = false := by
          simp [beq_eq_false_iff_ne]; exact fun h2 => h h2.symm
        simp only [List.map_cons, hb1, cond_false, List.lookup, hb, ih]

theorem lookup_append_single (d : ProgressRecord) (k : Topic) (v : Bool)
    (h : d.lookup k = none) : (d ++ [(k, v)]).lookup k = some v := by
  induction d with
  | nil => simp [List.lookup]
  | cons a l ih =>
      obtain ⟨k1, v1⟩ := a
      by_cases hk : k1 = k
      · subst hk; simp [List.lookup] at h
      · have hb : (k == k1) = false := by
          simp [beq_eq_false_iff_ne]; exact fun h2 => hk h2.symm
        simp only [List.cons_append, List.lookup, hb] at h ⊢
        exact ih h

theorem lookup_dictSet (d : ProgressRecord) (k : Topic) (v : Bool) :
    (dictSet d k v).lookup k = some v := by
  unfold dictSet
  cases hl : d.lookup k with
  | some w =>
      rw [if_pos (by simp [hl])]
      rw [lookup_map_update, hl]
      rfl
  | none =>
      rw [if_neg (by simp [hl])]
      exact lookup_append_single d k v hl

theorem map_entry_congr (l : List Topic) (f g : Topic → Bool)
    (h : ∀ t ∈ l, f t = g t) :
    l.map (fun t => (t, f t)) = l.map (fun t => (t, g t)) := by
  induction l with
  | nil => rfl
  | cons a t ih =>
      simp only [List.map_cons, List.cons.injEq]
      refine ⟨by rw [h a (List.mem_cons_self a t)], ?_⟩
      exact ih (fun x hx => h x (List.mem_cons_of_mem a hx))

theorem getElem?_eq_drop_head (l : List Topic) (i : Nat) :
    l[i]? = (l.drop i).head? := by
  induction l generalizing i with
  | nil => simp
  | cons a t ih =>
      cases i with
      | zero => simp
      | succ n => simp

theorem filter_drop_indexOf (l : List Topic) (p : Topic → Bool) (c : Topic)
    (h : c ∈ l.filter p) :
    (l.filter p).drop ((l.filter p).indexOf c + 1)
      = ((l.dropWhile (fun x => x != c)).tail).filter p := by
  induction l with
  | nil => simp at h
  | cons a t ih =>
      by_cases hpa : p a
      · rw [List.filter_cons_of_pos hpa] at h ⊢
        by_cases hca : c = a
        · subst hca
          rw [List.indexOf_cons_self]
          simp [List.dropWhile_cons, List.filter_cons, hpa]
        · have hmem : c ∈ t.filter p := by
            rcases List.mem_cons.mp h with h1 | h1
            · exact absurd h1 hca
            · exact h1
          have hac : (a != c) = true := by
            simp [bne_iff_ne]
            exact fun h2 => hca h2.symm
          have hne : (c == a) = false := by
            simp [beq_eq_false_iff_ne]; exact hca
          rw [List.indexOf_cons_ne _ (fun h2 => hca h2.symm)]
          simp only [List.dropWhile_cons, hac, if_true, List.drop_succ_cons]
          exact ih hmem
      · rw [List.filter_cons_of_neg hpa] at h ⊢
        have hca : ¬c = a := by
          intro hh
          subst hh
          exact hpa (List.of_mem_filter h)
        have hac : (a != c) = true := by
          simp [bne_iff_ne]
          exact fun h2 => hca h2.symm
        simp only [List.dropWhile_cons, hac, if_true]
        exact ih h

theorem nextStep_getElem (available : List Topic) (concept : Topic)
    (res : HttpResponse) (sess : SessionState) :
    nextStep available concept res sess
      = match available[nextIdx available concept]? with
        | some c =>
            ({ sess with
                selected_concept := some c,
                explanation := some (explanationText res) },
             [get_explanation_messages c false false])
        | none => (sess, []) := by
  unfold nextStep
  by_cases h : nextIdx available concept < available.length
  · rw [dif_pos h]
    cases hq : available[nextIdx available concept]? with
    | none =>
        rw [List.getElem?_eq_getElem h] at hq
        exact absurd hq (by simp)
    | some c =>
        rw [List.getElem?_eq_getElem h] at hq
        have hc : available.get ⟨nextIdx available concept, h⟩ = c := by
          simpa [List.get_eq_getElem] using Option.some.inj hq
        rw [hc]
  · rw [dif_neg h]
    have hq : available[nextIdx available concept]? = none :=
      List.getElem?_eq_none (Nat.le_of_not_lt h)
    simp only [hq]

theorem getElem?_zero_head (l : List Topic) : l[0]? = l.head? := by
  cases l <;> simp

theorem map_fst_entries (l : List Topic) (f : Topic → Bool) :
    (l.map (fun t => (t, f t))).map Prod.fst = l := by
  induction l with
  | nil => rfl
  | cons a t ih => simp [ih]

/- Claim theorems -/

/-- C1: for every ordered topic list and username, `load_progress` returns
a record whose domain is exactly the given topics; with no persisted file
it maps every topic to `false`; with a file it maps each topic to its
stored value when present and `false` when absent, and stored keys outside
the topic list are excluded (the domain equality). -/
theorem load_progress_domain_values (topics : List Topic) (u : String)
    (fs : Store) :
    ((load_progress topics u fs).map Prod.fst = topics)
    ∧ (fs u = none → load_progress topics u fs = topics.map (fun t => (t, false)))
    ∧ (∀ data, fs u = some data →
        load_progress topics u fs
          = topics.map (fun t => (t, (data.lookup t).getD false))) := by
  refine ⟨?_, ?_, ?_⟩
  · unfold load_progress
    cases fs u with
    | none => exact map_fst_entries topics (fun _ => false)
    | some data => exact map_fst_entries topics (fun t => (data.lookup t).getD false)
  · intro h
    simp [load_progress, h]
  · intro data h
    simp [load_progress, h]

/-- C1 witness: concrete evaluation for user alice whose stored file holds
only topic B, loaded against the topic list A, B. -/
theorem load_progress_domain_values_witness :
    load_progress ["A", "B"] "alice" fsAlice = [("A", false), ("B", true)]
    ∧ (load_progress ["A", "B"] "alice" fsAlice).map Prod.fst = ["A", "B"] := by
  have h := load_progress_domain_values ["A", "B"] "alice" fsAlice
  refine ⟨?_, h.1⟩
  rw [h.2.2 [("B", true)] (by decide)]
  decide

/-- C2: the code computes `int((completed / total) * 100)` with
`total = len(ROADMAP)` and no guard, so an empty topic list divides by
zero (embedded as `none`) instead of yielding the 0 the spec requires;
for nonempty lists the computation is the floor formula, shown here at
half-complete and fully-complete records. -/
theorem percent_zero_division :
    percentCode [] [] = none
    ∧ percentCode [("A", true), ("B", false)] ["A", "B"] = some 50
    ∧ percentCode [("A", true), ("B", true)] ["A", "B"] = some 100 := by
  exact ⟨rfl, rfl, rfl⟩

/-- C3: saving a record whose domain covers the topic list and then
loading that list returns the record restricted to the topic list, and
every topic reads back its saved value. -/
theorem save_then_load_roundtrip (R : ProgressRecord) (topics : List Topic)
    (u : String) (fs : Store) (h : ∀ t ∈ topics, (R.lookup t).isSome) :
    load_progress topics u (save_progress R u fs)
        = topics.map (fun t => (t, (R.lookup t).getD false))
    ∧ ∀ t ∈ topics,
        (load_progress topics u (save_progress R u fs)).lookup t
          = R.lookup t := by
  have h1 : load_progress topics u (save_progress R u fs)
      = topics.map (fun t => (t, (R.lookup t).getD false)) := by
    simp [load_progress, save_progress]
  refine ⟨h1, ?_⟩
  intro t ht
  rw [h1, lookup_map_self, if_pos ht]
  cases hR : R.lookup t with
  | none =>
      have hs := h t ht
      rw [hR] at hs
      simp at hs
  | some w => simp

/-- C3 witness: concrete round trip for user bob with record A mapped to
true, over an initially empty store. -/
theorem save_then_load_roundtrip_witness :
    load_progress ["A"] "bob" (save_progress [("A", true)] "bob" emptyStore)
      = [("A", true)] := by
  have h := save_then_load_roundtrip [("A", true)] ["A"] "bob" emptyStore
    (by decide)
  rw [h.1]
  decide

/-- C4: reset equals saving the all-false record over the topics, and a
load after reset returns the record mapping every topic to false. -/
theorem reset_then_load_all_false (topics : List Topic) (u : String)
    (fs : Store) :
    reset_progress topics u fs
        = save_progress (topics.map (fun t => (t, false))) u fs
    ∧ load_progress topics u (reset_progress topics u fs)
        = topics.map (fun t => (t, false)) := by
  refine ⟨rfl, ?_⟩
  have h1 : load_progress topics u (reset_progress topics u fs)
      = topics.map
          (fun t => (t, ((topics.map (fun s => (s, false))).lookup t).getD false)) := by
    simp [load_progress, reset_progress, save_progress]
  rw [h1]
  apply map_entry_congr
  intro t ht
  rw [lookup_map_self, if_pos ht]
  rfl

/-- C5 counterexample: with remaining topics A and B and current topic C
not among them, the claim requires a transition to Idle with no request;
the code instead computes index 0, re-selects topic A and issues a
request. -/
theorem next_reselects_first_when_current_missing :
    ((nextStep ["A", "B"] "C" resOk sessStub).1.selected_concept = some "A")
    ∧ (nextStep ["A", "B"] "C" resOk sessStub).2 ≠ [] := by
  refine ⟨?_, ?_⟩ <;> decide

/-- C5 (amended): when the current topic is in the remaining list, `next`
selects the first not-yet-completed topic after it in roadmap order and
requests its explanation, and does nothing (no request, no crash, no
re-selection, and also no explicit signal) when no such successor exists;
when the current topic is not in the remaining list it selects the first
remaining topic when one exists, and does nothing when the list is
empty. -/
theorem nextStep_spec (roadmap : List Topic) (progress : ProgressRecord)
    (concept : Topic) (res : HttpResponse) (sess : SessionState) :
    (∀ c, concept ∈ available_concepts roadmap progress →
        succAfter roadmap progress concept = some c →
        nextStep (available_concepts roadmap progress) concept res sess
          = ({ sess with
                selected_concept := some c,
                explanation := some (explanationText res) },
             [get_explanation_messages c false false]))
    ∧ (concept ∈ available_concepts roadmap progress →
        succAfter roadmap progress concept = none →
        nextStep (available_concepts roadmap progress) concept res sess
          = (sess, []))
    ∧ (∀ c, concept ∉ available_concepts roadmap progress →
        (available_concepts roadmap progress).head? = some c →
        nextStep (available_concepts roadmap progress) concept res sess
          = ({ sess with
                selected_concept := some c,
                explanation := some (explanationText res) },
             [get_explanation_messages c false false]))
    ∧ (concept ∉ available_concepts roadmap progress →
        (available_concepts roadmap progress).head? = none →
        nextStep (available_concepts roadmap progress) concept res sess
          = (sess, [])) := by
  simp only [available_concepts, succAfter]
  refine ⟨?_, ?_, ?_, ?_⟩
  · intro c hmem hsucc
    rw [nextStep_getElem]
    have h2 := congrArg List.head?
      (filter_drop_indexOf roadmap
        (fun x => !((progress.lookup x).getD false)) concept hmem)
    simp only [nextIdx, hmem, if_true, getElem?_eq_drop_head, h2, hsucc]
  · intro hmem hsucc
    rw [nextStep_getElem]
    have h2 := congrArg List.head?
      (filter_drop_indexOf roadmap
        (fun x => !((progress.lookup x).getD false)) concept hmem)
    simp only [nextIdx, hmem, if_true, getElem?_eq_drop_head, h2, hsucc]
  · intro c hnot hhead
    rw [nextStep_getElem]
    simp only [nextIdx, hnot, if_false, getElem?_zero_head, hhead]
  · intro hnot hhead
    rw [nextStep_getElem]
    simp only [nextIdx, hnot, if_false, getElem?_zero_head, hhead]

/-- C5 witness: with roadmap A, B all incomplete and current topic A,
`next` selects B and requests its explanation. -/
theorem nextStep_spec_witness :
    nextStep (available_concepts ["A", "B"] [("A", false), ("B", false)])
        "A" resOk sessStub
      = ({ sessStub with
            selected_concept := some "B",
            explanation := some (explanationText resOk) },
         [get_explanation_messages "B" false false]) := by
  exact (nextStep_spec ["A", "B"] [("A", false), ("B", false)] "A" resOk
    sessStub).1 "B" (by decide) (by decide)

/-- C6: a non-200 response yields exactly the string built from the status
code and body, the handlers store it as the explanation text, and no
exception propagates (the embedded operation is total). -/
theorem error_response_verbatim (concept : Topic) (quiz «example» : Bool)
    (res : HttpResponse) (sess : SessionState) (h : res.status_code ≠ 200) :
    (get_explanation concept quiz «example» res).2
        = "❌ Error " ++ toString res.status_code ++ ": " ++ res.text
    ∧ (teachMeStep concept res sess).1.explanation
        = some ("❌ Error " ++ toString res.status_code ++ ": " ++ res.text)
    ∧ (regenerateStep concept res sess).1.explanation
        = some ("❌ Error " ++ toString res.status_code ++ ": " ++ res.text) := by
  have hx : explanationText res
      = "❌ Error " ++ toString res.status_code ++ ": " ++ res.text := by
    simp [explanationText, h]
  exact ⟨hx, by simp [teachMeStep, hx], by simp [regenerateStep, hx]⟩

/-- C6 witness: the spec scenario, a 500 response with body
rate limited. -/
theorem error_response_verbatim_witness :
    (get_explanation "X" false false res500).2 = "❌ Error 500: rate limited" := by
  have h := error_response_verbatim "X" false false res500 sessStub (by decide)
  rw [h.1]
  decide

/-- C7 counterexample: topic A is marked complete, yet the Regenerate
handler targeting A still issues a Completion Service request; no
InvalidTopic rejection exists in the code. -/
theorem completed_topic_still_requested :
    (([("A", true)] : ProgressRecord).lookup "A").getD false = true
    ∧ (regenerateStep "A" resOk sessStub).2
        = [get_explanation_messages "A" false false]
    ∧ (regenerateStep "A" resOk sessStub).2 ≠ [] := by
  refine ⟨by decide, rfl, by decide⟩

/-- C7 (amended): the selection list offered to the user contains exactly
the roadmap topics not marked complete — this is the only guard; the
handler layer enforces no completion check and, for example, Regenerate
issues its request for the session topic unconditionally. -/
theorem available_concepts_excludes_completed (roadmap : List Topic)
    (progress : ProgressRecord) (c : Topic) :
    (c ∈ available_concepts roadmap progress
        ↔ c ∈ roadmap ∧ (progress.lookup c).getD false = false)
    ∧ ∀ concept res sess,
        (regenerateStep concept res sess).2
          = [get_explanation_messages concept false false] := by
  constructor
  · unfold available_concepts
    rw [List.mem_filter]
    simp
  · intro concept res sess
    rfl

/-- C7 witness: topic B, incomplete, is offered while topic A, complete,
determines nothing here. -/
theorem available_concepts_excludes_completed_witness :
    "B" ∈ available_concepts ["A", "B"] [("A", true), ("B", false)] := by
  exact (available_concepts_excludes_completed ["A", "B"]
    [("A", true), ("B", false)] "B").1.mpr (by decide)

/-- C8 counterexample: Mark Done pops only the selected concept; the
cached explanation, example and quiz survive in the session state, so the
claim that all cached content is cleared fails. -/
theorem markDone_retains_cached_content :
    ((markDoneStep [("A", false)] "A" "alice" emptyStore sessStub).2.2.explanation
        = some "expl")
    ∧ ((markDoneStep [("A", false)] "A" "alice" emptyStore sessStub).2.2.«example»
        = some "ex")
    ∧ ((markDoneStep [("A", false)] "A" "alice" emptyStore sessStub).2.2.quiz
        = some "qz") := by
  exact ⟨rfl, rfl, rfl⟩

/-- C8 (amended): Mark Done sets the topic flag to true in the progress
dict, persists the updated dict under the username, and removes the
selected topic (Idle); the cached explanation, example and quiz entries
are left in place. -/
theorem markDoneStep_spec (progress : ProgressRecord) (concept : Topic)
    (username : String) (fs : Store) (sess : SessionState) :
    ((markDoneStep progress concept username fs sess).1.lookup concept
        = some true)
    ∧ ((markDoneStep progress concept username fs sess).2.1 username
        = some (dictSet progress concept true))
    ∧ ((markDoneStep progress concept username fs sess).2.2.selected_concept
        = none)
    ∧ ((markDoneStep progress concept username fs sess).2.2.explanation
        = sess.explanation)
    ∧ ((markDoneStep progress concept username fs sess).2.2.«example»
        = sess.«example»)
    ∧ ((markDoneStep progress concept username fs sess).2.2.quiz
        = sess.quiz) := by
  refine ⟨lookup_dictSet progress concept true, ?_, rfl, rfl, rfl, rfl⟩
  simp [markDoneStep, save_progress]

/-- C9 counterexample: Regenerate overwrites only the explanation; the
previously cached example and quiz text survive, so the claim that they
are discarded fails. -/
theorem regenerate_keeps_example_and_quiz :
    ((regenerateStep "A" resOk sessStub).1.«example» = some "ex")
    ∧ ((regenerateStep "A" resOk sessStub).1.quiz = some "qz") := by
  exact ⟨rfl, rfl⟩

/-- C9 (amended): Regenerate re-requests explanation content for the same
selected topic (the selection is unchanged) and overwrites only the
explanation; cached example and quiz text remain, and are reset only by
the Teach Me handler on a fresh selection. -/
theorem regenerateStep_spec (concept : Topic) (res : HttpResponse)
    (sess : SessionState) :
    ((regenerateStep concept res sess).1.selected_concept
        = sess.selected_concept)
    ∧ ((regenerateStep concept res sess).1.explanation
        = some (explanationText res))
    ∧ ((regenerateStep concept res sess).2
        = [get_explanation_messages concept false false])
    ∧ ((regenerateStep concept res sess).1.«example» = sess.«example»)
    ∧ ((regenerateStep concept res sess).1.quiz = sess.quiz)
    ∧ ((teachMeStep concept res sess).1.«example» = none)
    ∧ ((teachMeStep concept res sess).1.quiz = none) := by
  exact ⟨rfl, rfl, rfl, rfl, rfl, rfl, rfl⟩

/-- C10: the mode flags select only the instruction string prefixed to the
topic in the user message and never change the rest of the request or the
response handling, and when both flags are set the quiz instruction wins
over the example instruction. -/
theorem mode_flags_only_affect_instruction (concept : Topic)
    (quiz «example» : Bool) (res : HttpResponse) :
    ((get_explanation concept quiz «example» res).1
        = [("system", "You are a helpful C programming tutor."),
           ("user", instructionFor quiz «example» ++ " " ++ concept)])
    ∧ ((get_explanation concept quiz «example» res).2
        = (get_explanation concept false false res).2)
    ∧ (instructionFor true true = instructionFor true false)
    ∧ (instructionFor true true
        = "Create a multiple choice quiz (3-4 options) with correct answer for:") := by
  exact ⟨rfl, rfl, rfl, rfl⟩
